import Mathlib

/-!
Verification of the PhyloGenius client against its specification.

The development shallowly embeds the TypeScript sources:
* `src/types.ts`               — data model (`Taxon`, `Character`, `ExerciseData`, `AppState`)
* `src/App.tsx`                — `shuffleArray`, `DEFAULT_DATA`, `startExercise`, screen switching
* `src/components/MatrixExercise.tsx` — `toggleCell`, `checkMatrix`
* `src/components/TeacherZone.tsx`    — `handleLogin`, `getStaticTreeGeometry`
* the Gemini service module    — `generateExercise`
* the `TreeExercise` component — slot layout, `handleItemClick`, `handleSlotClick`,
  `checkCompletion`, `getGeometry`

JavaScript numbers are embedded as exact rationals (`ℚ`) for the layout geometry,
JavaScript `undefined` / `null` as `Option`, records (objects) as association lists
with unique keys, and thrown exceptions as `Except`.
-/

namespace PhyloGenius

/-! ## Data model (src/types.ts) -/

/-- `Taxon` from src/types.ts.  Optional fields are `Option`s. -/
structure Taxon where
  id : String
  name : String
  scientificName : Option String := none
  description : String
  imageUrl : Option String := none
  wikipediaUrl : Option String := none
  emoji : String
  isFossil : Option Bool := none
deriving DecidableEq, Repr

/-- `Character` from src/types.ts. -/
structure Character where
  id : String
  name : String
  description : String
deriving DecidableEq, Repr

/-- One entry of `evolutionOrder` from src/types.ts (`characterId` and
`branchingTaxonId` are nullable there). -/
structure EvolutionStep where
  characterId : Option String
  branchingTaxonId : Option String
deriving DecidableEq, Repr

/-- The `difficulty` union type `'Facile' | 'Moyen' | 'Difficile'`. -/
inductive Difficulty where
  | facile
  | moyen
  | difficile
deriving DecidableEq, Repr

/-- A JavaScript `Record<string, string[]>`: an association list whose keys are
unique (object keys are unique).  Lookup takes the first (hence only) match. -/
abbrev StrRecord : Type := List (String × List String)

/-- `record[k]` — `none` models JavaScript `undefined` for a missing key. -/
def recordGet (m : StrRecord) (k : String) : Option (List String) :=
  (m.find? (fun p => p.1 == k)).map (·.2)

/-- `record[k] = v` — overwrite an existing key, otherwise append (object
assignment semantics). -/
def recordSet (m : StrRecord) (k : String) (v : List String) : StrRecord :=
  if (List.any m (fun p => p.1 == k)) then
    List.map (fun p => if p.1 == k then (k, v) else p) m
  else
    m ++ [(k, v)]

/-- `ExerciseData` from src/types.ts. -/
structure ExerciseData where
  title : String
  difficulty : Difficulty
  taxons : List Taxon
  characters : List Character
  correctMatrix : StrRecord
  evolutionOrder : List EvolutionStep

/-- The `AppState` union type from src/types.ts:
`'setup' | 'loading' | 'info' | 'matrix' | 'tree' | 'success'`. -/
inductive UiState where
  | setup
  | loading
  | info
  | matrix
  | tree
  | success
deriving DecidableEq, Repr

/-! ## MatrixExercise component (src/components/MatrixExercise.tsx)

The component state is `userMatrix : taxonId -> charId -> boolean | undefined`
(embedded as a function into `Option Bool`), plus the `showErrors` and
`success` flags. -/

structure MatrixState where
  userMatrix : String → String → Option Bool
  showErrors : Bool
  success : Bool

/-- The initialisation effect sets every cell to `undefined`. -/
def initialMatrixState : MatrixState :=
  { userMatrix := fun _ _ => none, showErrors := false, success := false }

/-- The cell cycle used by `toggleCell`:
`undefined -> true -> false -> undefined`. -/
def toggleNext : Option Bool → Option Bool
  | none => some true
  | some true => some false
  | some false => none

/-- `toggleCell` from MatrixExercise.tsx: early-returns when `success` is set,
otherwise rewrites the one cell with `toggleNext` (object-spread update) and
clears `showErrors`. -/
def toggleCell (taxonId charId : String) (st : MatrixState) : MatrixState :=
  if st.success then st
  else
    { st with
      userMatrix := fun t c =>
        if t = taxonId ∧ c = charId then toggleNext (st.userMatrix taxonId charId)
        else st.userMatrix t c,
      showErrors := false }

/-- `correctMatrix[t.id]?.includes(c.id)` — `undefined` when the taxon is not a
key of the record, otherwise the boolean membership test. -/
def shouldBePresent (cm : StrRecord) (t c : String) : Option Bool :=
  (recordGet cm t).map (fun chars => chars.contains c)

/-- The `allFilled` accumulator of `checkMatrix`: every (taxon, character)
cell is set. -/
def matrixAllFilled (taxons : List Taxon) (characters : List Character)
    (st : MatrixState) : Bool :=
  taxons.all fun t => characters.all fun c => (st.userMatrix t.id c.id).isSome

/-- The per-cell body of the `checkMatrix` loop: a set cell counts as an
error when it differs (strict `!==`) from
`correctMatrix[t.id]?.includes(c.id)`. -/
def cellMismatch (cm : StrRecord) (st : MatrixState) (t c : String) : Bool :=
  match st.userMatrix t c with
  | none => false
  | some v => some v != shouldBePresent cm t c

/-- The `hasErrors` accumulator of `checkMatrix`. -/
def matrixHasErrors (taxons : List Taxon) (characters : List Character)
    (cm : StrRecord) (st : MatrixState) : Bool :=
  taxons.any fun t => characters.any fun c => cellMismatch cm st t.id c.id

/-- The claim's reading of "the character id is in `correctMatrix[taxonId]`":
membership in the key's list, where a missing key denotes the empty list
(JavaScript `correctMatrix[taxonId]?.includes(c)` being falsy).  Stated from
the spec's words, to be compared with `checkMatrix`'s own test. -/
def claimedKeyPresent (cm : StrRecord) (t c : String) : Bool :=
  ((recordGet cm t).getD []).contains c

/-- `checkMatrix` from MatrixExercise.tsx.  The second component of the result
records whether the fill-in `alert` was raised. -/
def checkMatrix (taxons : List Taxon) (characters : List Character)
    (cm : StrRecord) (st : MatrixState) : MatrixState × Bool :=
  if !matrixAllFilled taxons characters st then (st, true)
  else if matrixHasErrors taxons characters cm st then
    ({ st with showErrors := true }, false)
  else
    ({ st with success := true }, false)

/-- The component's footer renders the advance button (`onComplete`) exactly
when `success` holds, and the check button otherwise. -/
def matrixAdvanceOffered (st : MatrixState) : Bool := st.success

/-! ## TreeExercise component

Layout constants and geometry use exact rationals in place of JavaScript
floating-point numbers. -/

/-- Slot types: `'attribute' | 'taxon'` (`attr` stands for the string
`'attribute'`, which is a keyword in Lean). -/
inductive SlotType where
  | attr
  | taxon
deriving DecidableEq, Repr

/-- The `Slot` interface of the TreeExercise component. -/
structure Slot where
  id : String
  type : SlotType
  x : ℚ
  y : ℚ
  expectedId : Option String
  filledWithId : Option String
deriving DecidableEq, Repr

/-- The layout constants of a comb-tree drawing.  TreeExercise and TeacherZone
use the same formulas with different constants, so the geometry is stated over
this record. -/
structure TreeLayout where
  startX : ℚ
  stepX : ℚ
  taxonW : ℚ
  taxonH : ℚ
  attrW : ℚ
  attrH : ℚ
  taxonTopY : ℚ
  trunkShift : ℚ
  trunkBaseY : ℚ

/-- TreeExercise constants: TAXON_W 112, TAXON_H 112, ATTR_W 120, ATTR_H 40,
START_X 50, STEP_X 200, TAXON_TOP_Y 40, TRUNK_BASE_Y 550, and
`trunkBaseX = START_X + 100`. -/
def treeExerciseLayout : TreeLayout :=
  { startX := 50, stepX := 200, taxonW := 112, taxonH := 112, attrW := 120,
    attrH := 40, taxonTopY := 40, trunkShift := 100, trunkBaseY := 550 }

/-- TeacherZone (`getStaticTreeGeometry`) constants: TAXON_W 100, TAXON_H 40,
START_X 50, STEP_X 150, TAXON_TOP_Y 20, TRUNK_BASE_Y 400, and
`trunkBaseX = START_X + 80`.  The attribute box sizes are unused there. -/
def teacherZoneLayout : TreeLayout :=
  { startX := 50, stepX := 150, taxonW := 100, taxonH := 40, attrW := 120,
    attrH := 40, taxonTopY := 20, trunkShift := 80, trunkBaseY := 400 }

/-- `TRUNK_TIP_Y = TAXON_TOP_Y + TAXON_H + 40`. -/
def trunkTipY (L : TreeLayout) : ℚ := L.taxonTopY + L.taxonH + 40

/-- `trunkBaseX` (`START_X + 100` in TreeExercise, `START_X + 80` in
TeacherZone). -/
def trunkBaseX (L : TreeLayout) : ℚ := L.startX + L.trunkShift

/-- `trunkTipX = START_X + (count - 1) * STEP_X + TAXON_W / 2` — the x of the
last taxon position plus half a card width. -/
def trunkTipX (L : TreeLayout) (count : ℕ) : ℚ :=
  L.startX + ((count : ℚ) - 1) * L.stepX + L.taxonW / 2

/-- `getTrunkPoint` — the affine parametrisation of the trunk line. -/
def getTrunkPoint (L : TreeLayout) (count : ℕ) (t : ℚ) : ℚ × ℚ :=
  (trunkBaseX L + (trunkTipX L count - trunkBaseX L) * t,
   L.trunkBaseY + (trunkTipY L - L.trunkBaseY) * t)

/-- `segmentSize = 1.0 / count`. -/
def segmentSize (count : ℕ) : ℚ := 1 / (count : ℚ)

/-- `nodeT = (index + 1) * segmentSize` — the trunk parameter of the i-th
segment's end node. -/
def nodeT (count i : ℕ) : ℚ := ((i : ℚ) + 1) * segmentSize count

/-- `attrT = (index + 0.5) * segmentSize` — the trunk parameter of the i-th
attribute slot. -/
def attrT (count i : ℕ) : ℚ := ((i : ℚ) + 1 / 2) * segmentSize count

/-- `taxonTargetX = START_X + index * STEP_X + TAXON_W / 2` — the x where the
i-th branch meets its taxon card (`getGeometry` / `getStaticTreeGeometry`). -/
def taxonTargetX (L : TreeLayout) (i : ℕ) : ℚ :=
  L.startX + (i : ℚ) * L.stepX + L.taxonW / 2

/-- The slot-building `useEffect` of TreeExercise: for each step of
`evolutionOrder`, an attribute slot centred on `getTrunkPoint attrT` when
`characterId` is non-null, and a taxon slot at the top row when
`branchingTaxonId` is non-null.  All slots start unfilled. -/
def buildSlots (d : ExerciseData) : List Slot :=
  let L := treeExerciseLayout
  let count := d.evolutionOrder.length
  (List.zip (List.range count) d.evolutionOrder).flatMap fun p =>
    let index := p.1
    let step := p.2
    let attrPos := getTrunkPoint L count (attrT count index)
    let taxonPosX := L.startX + (index : ℚ) * L.stepX
    (match step.characterId with
     | some cid =>
        [{ id := "attr-" ++ toString index, type := SlotType.attr,
           x := attrPos.1 - L.attrW / 2, y := attrPos.2 - L.attrH / 2,
           expectedId := some cid, filledWithId := none }]
     | none => []) ++
    (match step.branchingTaxonId with
     | some tid =>
        [{ id := "taxon-" ++ toString index, type := SlotType.taxon,
           x := taxonPosX, y := L.taxonTopY,
           expectedId := some tid, filledWithId := none }]
     | none => [])

/-- The TreeExercise component state: `slots`, `selectedItemId`, `success`
and the `mistakes` counter. -/
structure TreeState where
  slots : List Slot
  selected : Option (String × SlotType)
  success : Bool
  mistakes : ℕ

/-- The state installed by the slot-building effect. -/
def initTreeState (d : ExerciseData) : TreeState :=
  { slots := buildSlots d, selected := none, success := false, mistakes := 0 }

/-- The ids currently placed in slots
(`slots.map(s => s.filledWithId).filter(Boolean)`). -/
def placedIds (slots : List Slot) : List String :=
  slots.filterMap (·.filledWithId)

/-- `getAvailableItems('taxon')`: the taxa whose id is not placed. -/
def availableTaxa (d : ExerciseData) (st : TreeState) : List Taxon :=
  d.taxons.filter fun t => !(placedIds st.slots).contains t.id

/-- `getAvailableItems('attribute')`: the characters whose id is not placed. -/
def availableCharacters (d : ExerciseData) (st : TreeState) : List Character :=
  d.characters.filter fun c => !(placedIds st.slots).contains c.id

/-- `handleItemClick`: early-return on success; clicking the selected item
deselects it, otherwise the item becomes the selection. -/
def handleItemClick (st : TreeState) (id : String) (ty : SlotType) : TreeState :=
  if st.success then st
  else if st.selected.map (·.1) == some id then { st with selected := none }
  else { st with selected := some (id, ty) }

/-- `slots.findIndex(s => s.id === slotId)` resolved to the slot itself
(the first slot with this id). -/
def findSlot? (slots : List Slot) (sid : String) : Option Slot :=
  slots.find? (fun s => s.id == sid)

/-- Overwrite `filledWithId` of the first slot whose id is `sid`
(`newSlots[slotIndex].filledWithId = v`). -/
def setSlotFill (slots : List Slot) (sid : String) (v : Option String) :
    List Slot :=
  match slots with
  | [] => []
  | s :: rest =>
    if s.id == sid then { s with filledWithId := v } :: rest
    else s :: setSlotFill rest sid v

/-- The `allFilled` local of `checkCompletion`:
`currentSlots.every(s => s.filledWithId !== null)`. -/
def treeAllFilled (currentSlots : List Slot) : Bool :=
  currentSlots.all fun s => s.filledWithId.isSome

/-- The `allCorrect` local of `checkCompletion`:
`currentSlots.every(s => s.filledWithId === s.expectedId)`. -/
def treeAllCorrect (currentSlots : List Slot) : Bool :=
  currentSlots.all fun s => s.filledWithId == s.expectedId

/-- `checkCompletion` from TreeExercise: when every slot is filled, either
declare success (slot-wise equality with the answer key) or count one more
mistake (and raise the alert, not modelled beyond the counter). -/
def checkCompletion (currentSlots : List Slot) (st : TreeState) : TreeState :=
  if treeAllFilled currentSlots then
    if treeAllCorrect currentSlots then { st with success := true }
    else { st with mistakes := st.mistakes + 1 }
  else st

/-- `handleSlotClick`: early-return on success; a filled slot is emptied; an
empty slot is filled from the selection when the types match, clearing the
selection and running `checkCompletion` on the new slots. -/
def handleSlotClick (st : TreeState) (sid : String) : TreeState :=
  if st.success then st
  else
    match findSlot? st.slots sid with
    | none => st
    | some slot =>
      if slot.filledWithId.isSome then
        { st with slots := setSlotFill st.slots sid none }
      else
        match st.selected with
        | some sel =>
          if sel.2 = slot.type then
            let newSlots := setSlotFill st.slots sid (some sel.1)
            checkCompletion newSlots
              { st with slots := newSlots, selected := none }
          else st
        | none => st

/-- A user interaction with the tree builder.  `itemClick` events can only
originate from an inventory button, and the inventory renders a button for an
id exactly when `getAvailableItems` offers it. -/
inductive TreeEvent where
  | itemClick (id : String) (ty : SlotType)
  | slotClick (sid : String)

/-- Whether the inventory currently renders a button for this item. -/
def treeItemOffered (d : ExerciseData) (st : TreeState) (id : String)
    (ty : SlotType) : Bool :=
  match ty with
  | SlotType.taxon => (availableTaxa d st).any fun t => t.id == id
  | SlotType.attr => (availableCharacters d st).any fun c => c.id == id

/-- One UI event of the tree builder. -/
def treeStep (d : ExerciseData) (st : TreeState) (e : TreeEvent) : TreeState :=
  match e with
  | TreeEvent.itemClick id ty =>
    if treeItemOffered d st id ty then handleItemClick st id ty else st
  | TreeEvent.slotClick sid => handleSlotClick st sid

/-- The tree-builder state after a sequence of UI events. -/
def treeRun (d : ExerciseData) (evs : List TreeEvent) : TreeState :=
  evs.foldl (treeStep d) (initTreeState d)

/-! ## shuffleArray (src/App.tsx)

`Math.floor(Math.random() * (i + 1))` at loop index `i` is embedded as an
oracle `rand : ℕ → ℕ`; since `Math.random () < 1`, the drawn index is at most
`i`, so the swap below is always in bounds along real executions.  Out-of-range
indices leave the list unchanged. -/

/-- The destructuring swap `[a[i], a[j]] = [a[j], a[i]]` on a copied array. -/
def listSwap (l : List α) (i j : ℕ) : List α :=
  match l[i]?, l[j]? with
  | some vi, some vj => (l.set i vj).set j vi
  | _, _ => l

/-- The Fisher–Yates loop of `shuffleArray`, counting `i` down to 1. -/
def shuffleAux (rand : ℕ → ℕ) : ℕ → List α → List α
  | 0, l => l
  | i + 1, l => shuffleAux rand i (listSwap l (i + 1) (rand (i + 1)))

/-- `shuffleArray` from src/App.tsx: copy, then swap positions
`length-1, …, 1` with random earlier positions. -/
def shuffleArray (rand : ℕ → ℕ) (l : List α) : List α :=
  shuffleAux rand (l.length - 1) l

/-! ## DEFAULT_DATA (src/App.tsx) -/

/-- The built-in fallback exercise `DEFAULT_DATA` ("Vertébrés Simples"). -/
def DEFAULT_DATA : ExerciseData :=
  { title := "Vertébrés Simples"
    difficulty := Difficulty.facile
    taxons :=
      [ { id := "t1", name := "Sardine", scientificName := some "Sardina pilchardus",
          description := "Vit dans l\x27eau. Corps recouvert d\x27écailles non soudées. Possède des nageoires rayonnées. Squelette osseux interne.",
          wikipediaUrl := some "https://fr.wikipedia.org/wiki/Sardina_pilchardus",
          emoji := "🐟" },
        { id := "t2", name := "Grenouille", scientificName := some "Pelophylax sp.",
          description := "Vit près de l\x27eau. Peau nue et humide. Possède 4 membres (tétrapode) et un squelette osseux.",
          wikipediaUrl := some "https://fr.wikipedia.org/wiki/Grenouille",
          emoji := "🐸" },
        { id := "t3", name := "Chat", scientificName := some "Felis catus",
          description := "Vit sur terre. Corps recouvert de poils. Possède des oreilles avec pavillon externe, 4 membres et des vertèbres.",
          wikipediaUrl := some "https://fr.wikipedia.org/wiki/Chat_domestique",
          emoji := "🐱" },
        { id := "t4", name := "Pigeon", scientificName := some "Columba livia",
          description := "Vit sur terre et dans les airs. Corps recouvert de plumes. Possède un gésier pour broyer les graines, 4 membres (dont 2 ailes) et des vertèbres.",
          wikipediaUrl := some "https://fr.wikipedia.org/wiki/Pigeon_biset",
          emoji := "🐦" } ]
    characters :=
      [ { id := "c1", name := "Vertèbres", description := "Squelette osseux interne" },
        { id := "c2", name := "4 membres", description := "Pattes ou ailes (Tétrapode)" },
        { id := "c3", name := "Poils", description := "Phanères spécifiques aux mammifères" },
        { id := "c4", name := "Plumes", description := "Phanères spécifiques aux oiseaux" } ]
    correctMatrix :=
      [ ("t1", ["c1"]),
        ("t2", ["c1", "c2"]),
        ("t3", ["c1", "c2", "c3"]),
        ("t4", ["c1", "c2", "c4"]) ]
    evolutionOrder :=
      [ { characterId := some "c1", branchingTaxonId := some "t1" },
        { characterId := some "c2", branchingTaxonId := some "t2" },
        { characterId := some "c3", branchingTaxonId := some "t3" },
        { characterId := some "c4", branchingTaxonId := some "t4" } ] }

/-! ## Gemini service (`generateExercise`)

The network exchange is embedded as an explicit argument: `Except` carries a
failed request (a thrown / rejected call), and `ApiResponse.text` is the
optional response text.  `JSON.parse` of the schema-constrained body is not
re-modelled at the string level: `text` directly carries the parsed
`RawExerciseResponse` payload. -/

/-- One `matrixList` entry of the raw API response. -/
structure RawMatrixEntry where
  taxonId : String
  presentCharacterIds : List String

/-- The `RawExerciseResponse` interface of the service module. -/
structure RawExerciseResponse where
  title : String
  taxons : List Taxon
  characters : List Character
  matrixList : List RawMatrixEntry
  evolutionOrder : List EvolutionStep

/-- The response object; `text` is `undefined` when the model returned no
text. -/
structure ApiResponse where
  text : Option RawExerciseResponse

/-- The three throw sites of `generateExercise`:
`"API Key is missing"`, a propagated request error, and
`"Impossible de générer l\x27exercice"` for a text-less response. -/
inductive GenError where
  | missingApiKey
  | requestFailed (msg : String)
  | emptyResponse
deriving DecidableEq, Repr

/-- The `matrixList` → `correctMatrix` conversion (`forEach` of object
assignments). -/
def buildCorrectMatrix (ml : List RawMatrixEntry) : StrRecord :=
  ml.foldl (fun acc item => recordSet acc item.taxonId item.presentCharacterIds) []

/-- `generateExercise`: throw before any request when the credential is
absent; propagate a failed call; throw on a text-less response; otherwise
assemble the `ExerciseData`, keeping the user-selected difficulty. -/
def generateExercise (apiKey : Option String) (difficulty : Difficulty)
    (call : Except String ApiResponse) : Except GenError ExerciseData :=
  match apiKey with
  | none => Except.error GenError.missingApiKey
  | some _ =>
    match call with
    | Except.error e => Except.error (GenError.requestFailed e)
    | Except.ok resp =>
      match resp.text with
      | some raw =>
        Except.ok
          { title := raw.title
            difficulty := difficulty
            taxons := raw.taxons
            characters := raw.characters
            correctMatrix := buildCorrectMatrix raw.matrixList
            evolutionOrder := raw.evolutionOrder }
      | none => Except.error GenError.emptyResponse

/-! ## App component (src/App.tsx) -/

/-- The App component state relevant to exercise generation. -/
structure AppComponentState where
  state : UiState
  exerciseData : Option ExerciseData
  error : Option String
  loading : Bool

/-- The single user-facing generation error message. -/
def generationErrorMessage : String :=
  "Erreur lors de la génération. Veuillez vérifier votre clé API ou réessayer."

/-- The shuffling applied to a payload before display
(taxa and characters shuffled independently). -/
def shuffleData (randT randC : ℕ → ℕ) (d : ExerciseData) : ExerciseData :=
  { d with
    taxons := shuffleArray randT d.taxons
    characters := shuffleArray randC d.characters }

/-- `startExercise(true)` after the awaited call settles: on success install
the shuffled payload and advance to `'info'`; on any exception set the single
error message and change nothing else (`loading` is reset in both cases). -/
def startExerciseAI (st : AppComponentState)
    (result : Except GenError ExerciseData)
    (randT randC : ℕ → ℕ) : AppComponentState :=
  match result with
  | Except.ok d =>
    { st with
      exerciseData := some (shuffleData randT randC d)
      state := UiState.info
      error := none
      loading := false }
  | Except.error _ =>
    { st with error := some generationErrorMessage, loading := false }

/-- `startExercise(false)`: install the shuffled default payload and advance
to `'info'`. -/
def startExerciseDemo (st : AppComponentState) (randT randC : ℕ → ℕ) :
    AppComponentState :=
  { st with
    exerciseData := some (shuffleData randT randC DEFAULT_DATA)
    state := UiState.info }

/-! ## The screen state machine (src/App.tsx `setState` call sites)

Every `setState` call in App.tsx, as an event:
* the header logo click (`setState('setup')`), reachable from any screen;
* the success path of `startExercise` (`setState('info')`), reachable from the
  setup screen only (its buttons render there), and only with a payload set;
* `InfoCards.onContinue` (`setState('matrix')`), rendered on `'info'`;
* `MatrixExercise.onComplete` (`setState('tree')`), offered on `'matrix'` and
  only once the matrix succeeded (`matrixAdvanceOffered`);
* `TreeExercise.onRestart` (`setState('setup')`), rendered on `'tree'`. -/

inductive AppEvent where
  | headerHome
  | exerciseReady
  | infoContinue
  | matrixComplete
  | treeRestart
deriving DecidableEq, Repr

/-- One screen transition; events whose callback is not rendered in the
current screen change nothing. -/
def appStep : UiState → AppEvent → UiState
  | _, AppEvent.headerHome => UiState.setup
  | UiState.setup, AppEvent.exerciseReady => UiState.info
  | UiState.info, AppEvent.infoContinue => UiState.matrix
  | UiState.matrix, AppEvent.matrixComplete => UiState.tree
  | UiState.tree, AppEvent.treeRestart => UiState.setup
  | s, _ => s

/-- The screen reached from `s` after a sequence of events. -/
def appReach (s : UiState) (evs : List AppEvent) : UiState :=
  evs.foldl appStep s

/-- All screens visited from `s` along a sequence of events, start included. -/
def appVisited (s : UiState) : List AppEvent → List UiState
  | [] => [s]
  | e :: evs => s :: appVisited (appStep s e) evs

/-! ## TeacherZone component (src/components/TeacherZone.tsx) -/

/-- The TeacherZone authentication state. -/
structure TeacherZoneState where
  isAuthenticated : Bool
  passwordInput : String
  error : Bool

/-- JavaScript `String.prototype.toLowerCase` (character-wise lowercasing;
ASCII suffices for the comparisons made here). -/
def jsToLowerCase (s : String) : String :=
  String.mk (s.data.map Char.toLower)

/-- JavaScript `String.prototype.trim`: strip whitespace from both ends. -/
def jsTrim (s : String) : String :=
  String.mk
    (((s.data.dropWhile Char.isWhitespace).reverse.dropWhile
        Char.isWhitespace).reverse)

/-- `handleLogin`: authenticate when the lowercased, trimmed input equals
`'darwin'`; otherwise set the error flag and clear the field. -/
def handleLogin (st : TeacherZoneState) : TeacherZoneState :=
  if jsTrim (jsToLowerCase st.passwordInput) = "darwin" then
    { st with isAuthenticated := true, error := false }
  else
    { st with error := true, passwordInput := "" }

/-! ## The "referenced IDs exist" invariant (spec, section 3) -/

/-- The ids of the payload's taxa. -/
def taxonIds (d : ExerciseData) : List String := d.taxons.map (·.id)

/-- The ids of the payload's characters. -/
def characterIds (d : ExerciseData) : List String := d.characters.map (·.id)

/-- A nullable reference is valid when, if present, it occurs in the list. -/
def optInList (o : Option String) (l : List String) : Bool :=
  match o with
  | some t => l.contains t
  | none => true

/-- The spec's "referenced IDs exist" invariant: every taxon id keyed in
`correctMatrix` or named as a `branchingTaxonId` occurs in `taxons`, and
every character id in a `correctMatrix` value or named as a `characterId`
occurs in `characters`. -/
def wellFormed (d : ExerciseData) : Bool :=
  (d.correctMatrix.all fun p =>
    (taxonIds d).contains p.1 &&
    p.2.all fun c => (characterIds d).contains c) &&
  (d.evolutionOrder.all fun step =>
    optInList step.branchingTaxonId (taxonIds d) &&
    optInList step.characterId (characterIds d))

/-! ## Concrete fixtures used by witnesses and counterexamples -/

/-- A raw API response whose matrix references a taxon id that does not occur
in its (empty) taxon list. -/
def badRaw : RawExerciseResponse :=
  { title := "x", taxons := [], characters := [],
    matrixList := [{ taxonId := "ghost", presentCharacterIds := [] }],
    evolutionOrder := [] }

/-- The payload `generateExercise` builds from `badRaw`. -/
def badGenerated : ExerciseData :=
  (generateExercise (some "k") Difficulty.facile
    (Except.ok ⟨some badRaw⟩)).toOption.getD DEFAULT_DATA

/-- A single taxon slot filled with the wrong taxon. -/
def demoWrongSlot : Slot :=
  { id := "taxon-0", type := SlotType.taxon, x := 0, y := 0,
    expectedId := some "t1", filledWithId := some "t2" }

/-- A fresh tree-builder state with no slots. -/
def demoTreeState : TreeState :=
  { slots := [], selected := none, success := false, mistakes := 0 }

/-- A minimal taxon with id `"t"`. -/
def demoTaxonT : Taxon :=
  { id := "t", name := "T", description := "d", emoji := "e" }

/-- A minimal character with id `"c"`. -/
def demoCharC : Character :=
  { id := "c", name := "C", description := "d" }

/-- A matrix state whose every cell is set to absent. -/
def demoAllAbsentState : MatrixState :=
  { userMatrix := fun _ _ => some false, showErrors := false, success := false }

/-- A matrix state whose every cell is set to present. -/
def demoAllPresentState : MatrixState :=
  { userMatrix := fun _ _ => some true, showErrors := false, success := false }

/-- An answer key with the single entry `"t" ↦ ["c"]`. -/
def demoKeyedMatrix : StrRecord := [("t", ["c"])]

/-! ## Theorems -/

/-- C10: starting unauthenticated, `handleLogin` authenticates exactly when
the entered password, lowercased and trimmed, equals `'darwin'`; on any other
input it stays unauthenticated, sets the error flag, and clears the password
field. -/
theorem teacherLogin_spec (st : TeacherZoneState)
    (h : st.isAuthenticated = false) :
    ((handleLogin st).isAuthenticated = true ↔
      jsTrim (jsToLowerCase st.passwordInput) = "darwin") ∧
    (jsTrim (jsToLowerCase st.passwordInput) ≠ "darwin" →
      (handleLogin st).isAuthenticated = false ∧
      (handleLogin st).error = true ∧
      (handleLogin st).passwordInput = "") := by
  unfold handleLogin
  by_cases hp : jsTrim (jsToLowerCase st.passwordInput) = "darwin" <;>
    simp [hp, h]

/-- Witness for C10 at the concrete input `" Darwin "`. -/
theorem teacherLogin_spec_witness :
    ((handleLogin ⟨false, " Darwin ", false⟩).isAuthenticated = true ↔
      jsTrim (jsToLowerCase " Darwin ") = "darwin") ∧
    (jsTrim (jsToLowerCase " Darwin ") ≠ "darwin" →
      (handleLogin ⟨false, " Darwin ", false⟩).isAuthenticated = false ∧
      (handleLogin ⟨false, " Darwin ", false⟩).error = true ∧
      (handleLogin ⟨false, " Darwin ", false⟩).passwordInput = "") :=
  teacherLogin_spec ⟨false, " Darwin ", false⟩ (by decide)

/-- C3: before success, one `toggleCell` maps the clicked cell through the
cycle `unset → present → absent → unset` (`toggleNext`), leaves every other
cell unchanged, clears `showErrors`, keeps `success`, and three successive
toggles of the same cell restore every cell; once `success` is declared the
handler is a no-op. -/
theorem toggleCell_cycle_spec (t c : String) (st : MatrixState) :
    (st.success = false →
      (toggleCell t c st).userMatrix t c = toggleNext (st.userMatrix t c) ∧
      (∀ t' c', ¬(t' = t ∧ c' = c) →
        (toggleCell t c st).userMatrix t' c' = st.userMatrix t' c') ∧
      (toggleCell t c st).showErrors = false ∧
      (toggleCell t c st).success = st.success ∧
      (∀ t' c',
        (toggleCell t c (toggleCell t c (toggleCell t c st))).userMatrix t' c'
          = st.userMatrix t' c')) ∧
    (st.success = true → toggleCell t c st = st) := by
  constructor
  · intro hs
    refine ⟨by simp [toggleCell, hs], ?_, by simp [toggleCell, hs],
      by simp [toggleCell, hs], ?_⟩
    · intro t' c' hne
      simp [toggleCell, hs, hne]
    · intro t' c'
      by_cases h' : t' = t ∧ c' = c
      · obtain ⟨rfl, rfl⟩ := h'
        simp only [toggleCell, hs, Bool.false_eq_true, if_false, and_self,
          if_true]
        rcases hv : st.userMatrix t' c' with _ | b
        · simp [toggleNext]
        · cases b <;> simp [toggleNext]
      · simp [toggleCell, hs, h']
  · intro hs
    simp [toggleCell, hs]

/-- Witness for C3: three toggles restore the initially unset cell. -/
theorem toggleCell_cycle_spec_witness :
    (initialMatrixState.success = false →
      (toggleCell "t1" "c1" initialMatrixState).userMatrix "t1" "c1" =
        toggleNext (initialMatrixState.userMatrix "t1" "c1") ∧
      (∀ t' c', ¬(t' = "t1" ∧ c' = "c1") →
        (toggleCell "t1" "c1" initialMatrixState).userMatrix t' c' =
          initialMatrixState.userMatrix t' c') ∧
      (toggleCell "t1" "c1" initialMatrixState).showErrors = false ∧
      (toggleCell "t1" "c1" initialMatrixState).success =
        initialMatrixState.success ∧
      (∀ t' c',
        (toggleCell "t1" "c1" (toggleCell "t1" "c1"
          (toggleCell "t1" "c1" initialMatrixState))).userMatrix t' c'
          = initialMatrixState.userMatrix t' c')) ∧
    (initialMatrixState.success = true →
      toggleCell "t1" "c1" initialMatrixState = initialMatrixState) :=
  toggleCell_cycle_spec "t1" "c1" initialMatrixState

/-- C2: starting from an unsuccessful state, `checkCompletion` declares
success exactly when every slot is filled and each slot's placed id equals
its expected id; when all slots are filled but some placement is wrong,
success stays false and the mistake counter increases by exactly 1. -/
theorem checkCompletion_success_iff (slots : List Slot) (st : TreeState)
    (hs : st.success = false) :
    ((checkCompletion slots st).success = true ↔
      (∀ s ∈ slots, (s.filledWithId).isSome) ∧
      (∀ s ∈ slots, s.filledWithId = s.expectedId)) ∧
    ((∀ s ∈ slots, (s.filledWithId).isSome) →
      (∃ s ∈ slots, s.filledWithId ≠ s.expectedId) →
      (checkCompletion slots st).success = false ∧
      (checkCompletion slots st).mistakes = st.mistakes + 1) := by
  have hA : treeAllFilled slots = true ↔
      ∀ s ∈ slots, (s.filledWithId).isSome := by
    simp [treeAllFilled, List.all_eq_true]
  have hB : treeAllCorrect slots = true ↔
      ∀ s ∈ slots, s.filledWithId = s.expectedId := by
    simp [treeAllCorrect, List.all_eq_true]
  unfold checkCompletion
  by_cases hf : treeAllFilled slots = true
  · rw [if_pos hf]
    by_cases hc : treeAllCorrect slots = true
    · rw [if_pos hc]
      refine ⟨⟨fun _ => ⟨hA.mp hf, hB.mp hc⟩, fun _ => rfl⟩, ?_⟩
      intro _ hbad
      obtain ⟨s, hsmem, hsne⟩ := hbad
      exact absurd (hB.mp hc s hsmem) hsne
    · rw [if_neg hc]
      refine ⟨⟨?_, ?_⟩, ?_⟩
      · intro hsucc
        have h1 : st.success = true := hsucc
        rw [hs] at h1
        exact absurd h1 (by decide)
      · rintro ⟨_, hall2⟩
        exact absurd (hB.mpr hall2) hc
      · intro _ _
        exact ⟨hs, rfl⟩
  · rw [if_neg hf]
    refine ⟨⟨?_, ?_⟩, ?_⟩
    · intro hsucc
      rw [hs] at hsucc
      exact absurd hsucc (by decide)
    · rintro ⟨hall1, _⟩
      exact absurd (hA.mpr hall1) hf
    · intro hall _
      exact absurd (hA.mpr hall) hf

/-- Replacing the m-th element after pulling it to the front is a
permutation. -/
theorem getElem_cons_set_perm (t : List α) (m : ℕ) (hm : m < t.length)
    (a : α) : List.Perm (t[m] :: t.set m a) (a :: t) := by
  induction t generalizing m with
  | nil => simp at hm
  | cons b t' ih =>
    match m with
    | 0 => simpa using List.Perm.swap a b t'
    | k + 1 =>
      have hk : k < t'.length := by simpa using hm
      have s1 : List.Perm (t'[k] :: b :: t'.set k a)
          (b :: t'[k] :: t'.set k a) := List.Perm.swap b t'[k] _
      have s2 : List.Perm (b :: t'[k] :: t'.set k a) (b :: a :: t') :=
        (ih k hk).cons b
      have s3 : List.Perm (b :: a :: t') (a :: b :: t') :=
        List.Perm.swap a b t'
      exact (s1.trans s2).trans s3

/-- An in-bounds double `set` realising a swap is a permutation. -/
theorem set_set_swap_perm (l : List α) (i j : ℕ) (hi : i < l.length)
    (hj : j < l.length) : List.Perm ((l.set i l[j]).set j l[i]) l := by
  induction l generalizing i j with
  | nil => simp at hi
  | cons a t ih =>
    match i, j with
    | 0, 0 => simp
    | 0, m + 1 =>
      have hm : m < t.length := by simpa using hj
      simpa using getElem_cons_set_perm t m hm a
    | m + 1, 0 =>
      have hm : m < t.length := by simpa using hi
      simpa using getElem_cons_set_perm t m hm a
    | m + 1, k + 1 =>
      have hm : m < t.length := by simpa using hi
      have hk : k < t.length := by simpa using hj
      simpa using (ih m k hm hk).cons a

/-- The destructuring swap of `shuffleArray` permutes the list. -/
theorem listSwap_perm (l : List α) (i j : ℕ) : List.Perm (listSwap l i j) l := by
  unfold listSwap
  rcases h₁ : l[i]? with _ | vi
  · simp
  · rcases h₂ : l[j]? with _ | vj
    · simp
    · obtain ⟨hi, rfl⟩ := List.getElem?_eq_some.mp h₁
      obtain ⟨hj, rfl⟩ := List.getElem?_eq_some.mp h₂
      exact set_set_swap_perm l i j hi hj

/-- Every pass of the Fisher–Yates loop permutes the list. -/
theorem shuffleAux_perm (rand : ℕ → ℕ) (n : ℕ) (l : List α) :
    List.Perm (shuffleAux rand n l) l := by
  induction n generalizing l with
  | zero => exact List.Perm.refl l
  | succ m ih =>
    exact (ih (listSwap l (m + 1) (rand (m + 1)))).trans
      (listSwap_perm l (m + 1) (rand (m + 1)))

/-- C8: `shuffleArray` returns a permutation of its input — same length, same
multiset, same members — and the shuffled exercise payload keeps exactly the
same taxa and characters (and all other fields) as the payload it came from. -/
theorem shuffleArray_permutation_spec (rand : ℕ → ℕ) (l : List α) :
    List.Perm (shuffleArray rand l) l ∧
    (shuffleArray rand l).length = l.length ∧
    (↑(shuffleArray rand l) : Multiset α) = (↑l : Multiset α) ∧
    (∀ a, a ∈ shuffleArray rand l ↔ a ∈ l) ∧
    (∀ (randT randC : ℕ → ℕ) (d : ExerciseData),
      List.Perm (shuffleData randT randC d).taxons d.taxons ∧
      List.Perm (shuffleData randT randC d).characters d.characters ∧
      (shuffleData randT randC d).title = d.title ∧
      (shuffleData randT randC d).correctMatrix = d.correctMatrix ∧
      (shuffleData randT randC d).evolutionOrder = d.evolutionOrder) := by
  have hp : List.Perm (shuffleArray rand l) l := shuffleAux_perm rand (l.length - 1) l
  refine ⟨hp, hp.length_eq, Quot.sound hp, fun a => hp.mem_iff, ?_⟩
  intro randT randC d
  exact ⟨shuffleAux_perm randT _ _, shuffleAux_perm randC _ _, rfl, rfl, rfl⟩

/-- Every slot built by the layout effect starts unfilled. -/
theorem buildSlots_unfilled (d : ExerciseData) :
    ∀ s ∈ buildSlots d, s.filledWithId = none := by
  intro s hs
  unfold buildSlots at hs
  simp only [List.mem_flatMap] at hs
  obtain ⟨p, _, hmem⟩ := hs
  rcases List.mem_append.mp hmem with h | h <;> split at h <;>
    simp_all

/-- No id is placed in a freshly built slot list. -/
theorem placedIds_buildSlots (d : ExerciseData) :
    placedIds (buildSlots d) = [] := by
  unfold placedIds
  rw [List.filterMap_eq_nil_iff]
  exact buildSlots_unfilled d

/-- `setSlotFill` on a head match rewrites the head slot. -/
theorem setSlotFill_cons_pos {a : Slot} {sid : String} (t : List Slot)
    (v : Option String) (h : (a.id == sid) = true) :
    setSlotFill (a :: t) sid v = { a with filledWithId := v } :: t := by
  simp [setSlotFill, h]

/-- `setSlotFill` on a head mismatch keeps the head and recurses. -/
theorem setSlotFill_cons_neg {a : Slot} {sid : String} (t : List Slot)
    (v : Option String) (h : ¬(a.id == sid) = true) :
    setSlotFill (a :: t) sid v = a :: setSlotFill t sid v := by
  simp [setSlotFill, h]

/-- Clearing the found, filled slot removes exactly one occurrence of its
content from the placed ids. -/
theorem placedIds_setSlotFill_clear (l : List Slot) (sid : String) (s : Slot)
    (x : String) (hfind : findSlot? l sid = some s)
    (hfill : s.filledWithId = some x) :
    List.Perm (placedIds l) (x :: placedIds (setSlotFill l sid none)) := by
  induction l with
  | nil => simp [findSlot?] at hfind
  | cons a t ih =>
    by_cases ha : (a.id == sid) = true
    · have hsa : a = s := by
        simpa [findSlot?, List.find?, ha] using hfind
      subst hsa
      rw [setSlotFill_cons_pos t none ha]
      unfold placedIds
      rw [List.filterMap_cons, List.filterMap_cons, hfill]
    · have hfind' : findSlot? t sid = some s := by
        simpa [findSlot?, List.find?, ha] using hfind
      have ihp := ih hfind'
      rw [setSlotFill_cons_neg t none ha]
      unfold placedIds
      rw [List.filterMap_cons, List.filterMap_cons]
      rcases hfa : a.filledWithId with _ | z
      · exact ihp
      · exact (ihp.cons z).trans (List.Perm.swap x z _)

/-- Filling the found, empty slot adds exactly its new content to the placed
ids. -/
theorem placedIds_setSlotFill_fill (l : List Slot) (sid : String) (s : Slot)
    (y : String) (hfind : findSlot? l sid = some s)
    (hfill : s.filledWithId = none) :
    List.Perm (placedIds (setSlotFill l sid (some y))) (y :: placedIds l) := by
  induction l with
  | nil => simp [findSlot?] at hfind
  | cons a t ih =>
    by_cases ha : (a.id == sid) = true
    · have hsa : a = s := by
        simpa [findSlot?, List.find?, ha] using hfind
      subst hsa
      rw [setSlotFill_cons_pos t (some y) ha]
      unfold placedIds
      rw [List.filterMap_cons, List.filterMap_cons, hfill]
    · have hfind' : findSlot? t sid = some s := by
        simpa [findSlot?, List.find?, ha] using hfind
      have ihp := ih hfind'
      rw [setSlotFill_cons_neg t (some y) ha]
      unfold placedIds
      rw [List.filterMap_cons, List.filterMap_cons]
      rcases hfa : a.filledWithId with _ | z
      · exact ihp
      · exact (ihp.cons z).trans (List.Perm.swap y z _)

/-- `checkCompletion` never modifies the slots or the selection. -/
theorem checkCompletion_slots_selected (cs : List Slot) (st : TreeState) :
    (checkCompletion cs st).slots = st.slots ∧
    (checkCompletion cs st).selected = st.selected := by
  unfold checkCompletion
  split
  · split <;> exact ⟨rfl, rfl⟩
  · exact ⟨rfl, rfl⟩

/-- The inventory only offers an id that is not currently placed. -/
theorem treeItemOffered_not_placed (d : ExerciseData) (st : TreeState)
    (id : String) (ty : SlotType) (h : treeItemOffered d st id ty = true) :
    id ∉ placedIds st.slots := by
  unfold treeItemOffered availableTaxa availableCharacters at h
  cases ty <;> simp only [List.any_eq_true, List.mem_filter] at h
  · obtain ⟨c, ⟨_, hnc⟩, hid⟩ := h
    have : c.id = id := by simpa using hid
    subst this
    simpa using hnc
  · obtain ⟨t, ⟨_, hnc⟩, hid⟩ := h
    have : t.id = id := by simpa using hid
    subst this
    simpa using hnc

/-- The induction invariant for the tree builder: placed ids are distinct and
the selected item (if any) is not placed. -/
def TreeInv (st : TreeState) : Prop :=
  (placedIds st.slots).Nodup ∧
  ∀ p, st.selected = some p → p.1 ∉ placedIds st.slots

/-- Every tree-builder event preserves the invariant. -/
theorem treeStep_preserves_inv (d : ExerciseData) (st : TreeState)
    (e : TreeEvent) (h : TreeInv st) : TreeInv (treeStep d st e) := by
  obtain ⟨hnd, hsel⟩ := h
  cases e with
  | itemClick id ty =>
    simp only [treeStep]
    by_cases hoff : treeItemOffered d st id ty = true
    · rw [if_pos hoff]
      unfold handleItemClick
      by_cases hsucc : st.success = true
      · rw [if_pos hsucc]; exact ⟨hnd, hsel⟩
      · rw [if_neg hsucc]
        by_cases hdesel : (st.selected.map (·.1) == some id) = true
        · rw [if_pos hdesel]
          exact ⟨hnd, by simp⟩
        · rw [if_neg hdesel]
          refine ⟨hnd, ?_⟩
          intro p hp
          have hp' : (id, ty) = p := by simpa using hp
          subst hp'
          exact treeItemOffered_not_placed d st id ty hoff
    · rw [if_neg hoff]; exact ⟨hnd, hsel⟩
  | slotClick sid =>
    simp only [treeStep]
    unfold handleSlotClick
    by_cases hsucc : st.success = true
    · rw [if_pos hsucc]; exact ⟨hnd, hsel⟩
    · rw [if_neg hsucc]
      cases hfind : findSlot? st.slots sid with
      | none => exact ⟨hnd, hsel⟩
      | some slot =>
        dsimp only
        by_cases hfillb : slot.filledWithId.isSome = true
        · obtain ⟨x, hfill⟩ := Option.isSome_iff_exists.mp hfillb
          rw [if_pos hfillb]
          have hperm := placedIds_setSlotFill_clear st.slots sid slot x
            hfind hfill
          have hnd' : (x :: placedIds (setSlotFill st.slots sid none)).Nodup :=
            hperm.nodup hnd
          refine ⟨(List.nodup_cons.mp hnd').2, ?_⟩
          intro p hp
          have hpold := hsel p hp
          intro hmem
          exact hpold (hperm.mem_iff.mpr (List.mem_cons_of_mem x hmem))
        · rw [if_neg hfillb]
          have hfill : slot.filledWithId = none :=
            Option.not_isSome_iff_eq_none.mp (by simpa using hfillb)
          cases hselval : st.selected with
          | none => exact ⟨hnd, hsel⟩
          | some sel =>
            dsimp only
            by_cases hty : sel.2 = slot.type
            · rw [if_pos hty]
              have hperm := placedIds_setSlotFill_fill st.slots sid slot sel.1
                hfind hfill
              have hnotin : sel.1 ∉ placedIds st.slots := hsel sel hselval
              have hcs := checkCompletion_slots_selected
                (setSlotFill st.slots sid (some sel.1))
                { st with
                  slots := setSlotFill st.slots sid (some sel.1)
                  selected := none }
              constructor
              · rw [hcs.1]
                exact hperm.symm.nodup (List.nodup_cons.mpr ⟨hnotin, hnd⟩)
              · intro p hp
                rw [hcs.2] at hp
                simp at hp
            · rw [if_neg hty]; exact ⟨hnd, hsel⟩

/-- The invariant holds after any event sequence. -/
theorem treeRun_inv (d : ExerciseData) (evs : List TreeEvent) :
    TreeInv (treeRun d evs) := by
  unfold treeRun
  have hinit : TreeInv (initTreeState d) := by
    constructor
    · rw [show (initTreeState d).slots = buildSlots d from rfl,
        placedIds_buildSlots]
      exact List.nodup_nil
    · intro p hp
      simp [initTreeState] at hp
  have hgen : ∀ (l : List TreeEvent) (st : TreeState), TreeInv st →
      TreeInv (l.foldl (treeStep d) st) := by
    intro l
    induction l with
    | nil => intro st h; exact h
    | cons e rest ih =>
      intro st h
      exact ih (treeStep d st e) (treeStep_preserves_inv d st e h)
  exact hgen evs (initTreeState d) hinit

/-- C9: along every sequence of tree-builder events, each taxon or character
id fills at most one slot (the placed ids are pairwise distinct), and the
inventory offers only ids that are not currently placed. -/
theorem treeBuilder_at_most_one_slot (d : ExerciseData)
    (evs : List TreeEvent) :
    (placedIds (treeRun d evs).slots).Nodup ∧
    (∀ t ∈ availableTaxa d (treeRun d evs),
      t.id ∉ placedIds (treeRun d evs).slots) ∧
    (∀ c ∈ availableCharacters d (treeRun d evs),
      c.id ∉ placedIds (treeRun d evs).slots) := by
  refine ⟨(treeRun_inv d evs).1, ?_, ?_⟩
  · intro t ht
    have := (List.mem_filter.mp ht).2
    simpa using this
  · intro c hc
    have := (List.mem_filter.mp hc).2
    simpa using this

/-- Witness for C9 on the default exercise after a placement. -/
theorem treeBuilder_at_most_one_slot_witness :
    (placedIds (treeRun DEFAULT_DATA
      [TreeEvent.itemClick "t1" SlotType.taxon,
       TreeEvent.slotClick "taxon-0"]).slots).Nodup ∧
    (∀ t ∈ availableTaxa DEFAULT_DATA (treeRun DEFAULT_DATA
      [TreeEvent.itemClick "t1" SlotType.taxon,
       TreeEvent.slotClick "taxon-0"]),
      t.id ∉ placedIds (treeRun DEFAULT_DATA
        [TreeEvent.itemClick "t1" SlotType.taxon,
         TreeEvent.slotClick "taxon-0"]).slots) ∧
    (∀ c ∈ availableCharacters DEFAULT_DATA (treeRun DEFAULT_DATA
      [TreeEvent.itemClick "t1" SlotType.taxon,
       TreeEvent.slotClick "taxon-0"]),
      c.id ∉ placedIds (treeRun DEFAULT_DATA
        [TreeEvent.itemClick "t1" SlotType.taxon,
         TreeEvent.slotClick "taxon-0"]).slots) :=
  treeBuilder_at_most_one_slot DEFAULT_DATA
    [TreeEvent.itemClick "t1" SlotType.taxon,
     TreeEvent.slotClick "taxon-0"]

/-- `allFilled` holds exactly when every cell of the grid is set. -/
theorem matrixAllFilled_iff (taxons : List Taxon) (characters : List Character)
    (st : MatrixState) :
    matrixAllFilled taxons characters st = true ↔
      ∀ t ∈ taxons, ∀ c ∈ characters, (st.userMatrix t.id c.id).isSome := by
  simp [matrixAllFilled, List.all_eq_true]

/-- A cell mismatches exactly when it is set and differs from the optional
membership test. -/
theorem cellMismatch_iff (cm : StrRecord) (st : MatrixState) (t c : String) :
    cellMismatch cm st t c = true ↔
      ∃ v, st.userMatrix t c = some v ∧ some v ≠ shouldBePresent cm t c := by
  unfold cellMismatch
  rcases h : st.userMatrix t c with _ | v <;> simp [bne_iff_ne]

/-- `hasErrors` holds exactly when some set cell differs from the optional
membership test. -/
theorem matrixHasErrors_iff (taxons : List Taxon) (characters : List Character)
    (cm : StrRecord) (st : MatrixState) :
    matrixHasErrors taxons characters cm st = true ↔
      ∃ t ∈ taxons, ∃ c ∈ characters, ∃ v, st.userMatrix t.id c.id = some v ∧
        some v ≠ shouldBePresent cm t.id c.id := by
  simp [matrixHasErrors, List.any_eq_true, cellMismatch_iff]

/-- When the answer key has an entry for the taxon, the code's optional
membership test agrees with the claim's plain membership reading. -/
theorem shouldBePresent_of_key (cm : StrRecord) (t c : String)
    (hk : (recordGet cm t).isSome) :
    shouldBePresent cm t c = some (claimedKeyPresent cm t c) := by
  obtain ⟨l, hl⟩ := Option.isSome_iff_exists.mp hk
  unfold shouldBePresent claimedKeyPresent
  rw [hl]
  rfl

/-- Counterexample to C1 as stated: with an answer key lacking the taxon's
entry, a grid whose single cell is set to absent matches the claim's reading
of the key (the character is not in `correctMatrix["t"]`), yet `checkMatrix`
does not declare success (the strict comparison against `undefined` flags an
error). -/
theorem checkMatrix_claim_counterexample :
    ¬ (((checkMatrix [demoTaxonT] [demoCharC] [] demoAllAbsentState).1.success
        = true) ↔
      ∀ t ∈ [demoTaxonT], ∀ c ∈ [demoCharC],
        demoAllAbsentState.userMatrix t.id c.id =
          some (claimedKeyPresent [] t.id c.id)) := by
  decide

/-- C1 (amended): provided the answer key has an entry for every listed taxon,
`checkMatrix` declares success exactly when every cell is set and equals the
key (present exactly when the character id is in `correctMatrix[taxonId]`);
with an unset cell it only raises the fill-in alert and returns the state
unchanged; with all cells set but some wrong it sets `showErrors`, not
success; and the advance action (`onComplete`) is offered exactly on success.
Without the key-coverage hypothesis the claim fails
(`checkMatrix_claim_counterexample`): a taxon absent from `correctMatrix`
makes every set cell of its row count as an error, even one set to absent. -/
theorem checkMatrix_success_iff (taxons : List Taxon)
    (characters : List Character) (cm : StrRecord) (st : MatrixState)
    (hk : ∀ t ∈ taxons, (recordGet cm t.id).isSome)
    (hs : st.success = false) :
    ((checkMatrix taxons characters cm st).1.success = true ↔
      ∀ t ∈ taxons, ∀ c ∈ characters,
        st.userMatrix t.id c.id = some (claimedKeyPresent cm t.id c.id)) ∧
    ((∃ t ∈ taxons, ∃ c ∈ characters, st.userMatrix t.id c.id = none) →
      checkMatrix taxons characters cm st = (st, true)) ∧
    ((∀ t ∈ taxons, ∀ c ∈ characters, (st.userMatrix t.id c.id).isSome) →
      (∃ t ∈ taxons, ∃ c ∈ characters,
        st.userMatrix t.id c.id ≠ some (claimedKeyPresent cm t.id c.id)) →
      (checkMatrix taxons characters cm st).1.showErrors = true ∧
      (checkMatrix taxons characters cm st).1.success = false ∧
      (checkMatrix taxons characters cm st).2 = false) ∧
    (matrixAdvanceOffered (checkMatrix taxons characters cm st).1 =
      (checkMatrix taxons characters cm st).1.success) := by
  refine ⟨?_, ?_, ?_, rfl⟩
  · unfold checkMatrix
    by_cases hf : matrixAllFilled taxons characters st = true
    · rw [hf]
      by_cases he : matrixHasErrors taxons characters cm st = true
      · rw [if_pos he]
        simp only [Bool.not_true, if_false]
        constructor
        · intro hsucc
          have h1 : st.success = true := hsucc
          rw [hs] at h1
          exact absurd h1 (by decide)
        · intro hall
          exfalso
          obtain ⟨t, ht, c, hc, v, hv, hvne⟩ :=
            (matrixHasErrors_iff taxons characters cm st).mp he
          have hcell := hall t ht c hc
          rw [hv] at hcell
          have hveq : v = claimedKeyPresent cm t.id c.id := by
            simpa using hcell
          apply hvne
          rw [hveq, shouldBePresent_of_key cm t.id c.id (hk t ht)]
      · rw [if_neg he]
        simp only [Bool.not_true, if_false]
        constructor
        · intro _
          intro t ht c hc
          obtain ⟨v, hv⟩ := Option.isSome_iff_exists.mp
            ((matrixAllFilled_iff taxons characters st).mp hf t ht c hc)
          rw [hv]
          by_contra hne
          apply he
          refine (matrixHasErrors_iff taxons characters cm st).mpr
            ⟨t, ht, c, hc, v, hv, ?_⟩
          rw [shouldBePresent_of_key cm t.id c.id (hk t ht)]
          intro heq
          apply hne
          rw [show v = claimedKeyPresent cm t.id c.id by simpa using heq]
        · intro _
          rfl
    · rw [Bool.not_eq_true] at hf
      rw [hf]
      simp only [Bool.not_false, if_true]
      constructor
      · intro hsucc
        have h1 : st.success = true := hsucc
        rw [hs] at h1
        exact absurd h1 (by decide)
      · intro hall
        exfalso
        rw [← Bool.not_eq_true] at hf
        apply hf
        refine (matrixAllFilled_iff taxons characters st).mpr ?_
        intro t ht c hc
        rw [hall t ht c hc]
        rfl
  · intro hunset
    obtain ⟨t, ht, c, hc, hv⟩ := hunset
    have hf : matrixAllFilled taxons characters st = false := by
      rw [← Bool.not_eq_true]
      intro hf
      have := (matrixAllFilled_iff taxons characters st).mp hf t ht c hc
      rw [hv] at this
      exact absurd this (by decide)
    unfold checkMatrix
    rw [hf]
    rfl
  · intro hall hmis
    obtain ⟨t, ht, c, hc, hne⟩ := hmis
    have hf : matrixAllFilled taxons characters st = true :=
      (matrixAllFilled_iff taxons characters st).mpr hall
    obtain ⟨v, hv⟩ := Option.isSome_iff_exists.mp (hall t ht c hc)
    have he : matrixHasErrors taxons characters cm st = true := by
      refine (matrixHasErrors_iff taxons characters cm st).mpr
        ⟨t, ht, c, hc, v, hv, ?_⟩
      rw [shouldBePresent_of_key cm t.id c.id (hk t ht)]
      intro heq
      apply hne
      rw [hv, show v = claimedKeyPresent cm t.id c.id by simpa using heq]
    unfold checkMatrix
    rw [hf, if_pos he]
    exact ⟨rfl, hs, rfl⟩

/-- Witness for C1 on a covered key with a fully present, correct grid. -/
theorem checkMatrix_success_iff_witness :
    (((checkMatrix [demoTaxonT] [demoCharC] demoKeyedMatrix
        demoAllPresentState).1.success = true) ↔
      ∀ t ∈ [demoTaxonT], ∀ c ∈ [demoCharC],
        demoAllPresentState.userMatrix t.id c.id =
          some (claimedKeyPresent demoKeyedMatrix t.id c.id)) ∧
    ((∃ t ∈ [demoTaxonT], ∃ c ∈ [demoCharC],
        demoAllPresentState.userMatrix t.id c.id = none) →
      checkMatrix [demoTaxonT] [demoCharC] demoKeyedMatrix demoAllPresentState
        = (demoAllPresentState, true)) ∧
    ((∀ t ∈ [demoTaxonT], ∀ c ∈ [demoCharC],
        (demoAllPresentState.userMatrix t.id c.id).isSome) →
      (∃ t ∈ [demoTaxonT], ∃ c ∈ [demoCharC],
        demoAllPresentState.userMatrix t.id c.id ≠
          some (claimedKeyPresent demoKeyedMatrix t.id c.id)) →
      (checkMatrix [demoTaxonT] [demoCharC] demoKeyedMatrix
        demoAllPresentState).1.showErrors = true ∧
      (checkMatrix [demoTaxonT] [demoCharC] demoKeyedMatrix
        demoAllPresentState).1.success = false ∧
      (checkMatrix [demoTaxonT] [demoCharC] demoKeyedMatrix
        demoAllPresentState).2 = false) ∧
    (matrixAdvanceOffered (checkMatrix [demoTaxonT] [demoCharC]
        demoKeyedMatrix demoAllPresentState).1 =
      (checkMatrix [demoTaxonT] [demoCharC] demoKeyedMatrix
        demoAllPresentState).1.success) :=
  checkMatrix_success_iff [demoTaxonT] [demoCharC] demoKeyedMatrix
    demoAllPresentState (by decide) (by decide)

/-- Witness for C8 on a concrete list and random oracle. -/
theorem shuffleArray_permutation_spec_witness :
    List.Perm (shuffleArray (fun _ => 0) ["a", "b", "c"]) ["a", "b", "c"] ∧
    (shuffleArray (fun _ => 0) ["a", "b", "c"]).length =
      (["a", "b", "c"] : List String).length :=
  ⟨(shuffleArray_permutation_spec (fun _ => 0) ["a", "b", "c"]).1,
   (shuffleArray_permutation_spec (fun _ => 0) ["a", "b", "c"]).2.1⟩

/-- Witness for C2: one wrongly filled slot out of one bumps the mistake
counter and leaves success unset. -/
theorem checkCompletion_success_iff_witness :
    ((checkCompletion [demoWrongSlot] demoTreeState).success = true ↔
      (∀ s ∈ [demoWrongSlot], (s.filledWithId).isSome) ∧
      (∀ s ∈ [demoWrongSlot], s.filledWithId = s.expectedId)) ∧
    ((∀ s ∈ [demoWrongSlot], (s.filledWithId).isSome) →
      (∃ s ∈ [demoWrongSlot], s.filledWithId ≠ s.expectedId) →
      (checkCompletion [demoWrongSlot] demoTreeState).success = false ∧
      (checkCompletion [demoWrongSlot] demoTreeState).mistakes =
        demoTreeState.mistakes + 1) :=
  checkCompletion_success_iff [demoWrongSlot] demoTreeState (by decide)

/-- C4: `generateExercise` fails in exactly two ways — with no API credential
it throws before the request (the result does not depend on the call), and
with a credential it fails exactly when the call fails (the error is
propagated) or the response carries no text; in every failure case the caller
sets the single user-facing message and leaves the screen, payload and every
other field unchanged (no retry is modelled anywhere). -/
theorem generateExercise_failure_spec :
    (∀ (diff : Difficulty) (call : Except String ApiResponse),
      generateExercise none diff call = Except.error GenError.missingApiKey) ∧
    (∀ (k : String) (diff : Difficulty) (e : String),
      generateExercise (some k) diff (Except.error e) =
        Except.error (GenError.requestFailed e)) ∧
    (∀ (k : String) (diff : Difficulty) (resp : ApiResponse),
      resp.text = none →
      generateExercise (some k) diff (Except.ok resp) =
        Except.error GenError.emptyResponse) ∧
    (∀ (k : String) (diff : Difficulty) (call : Except String ApiResponse),
      (∃ err, generateExercise (some k) diff call = Except.error err) ↔
      (∃ e, call = Except.error e) ∨
      (∃ resp, call = Except.ok resp ∧ resp.text = none)) ∧
    (∀ (st : AppComponentState) (err : GenError) (randT randC : ℕ → ℕ),
      startExerciseAI st (Except.error err) randT randC =
        { st with error := some generationErrorMessage, loading := false }) := by
  refine ⟨fun _ _ => rfl, fun _ _ _ => rfl, ?_, ?_, fun _ _ _ _ => rfl⟩
  · intro k diff resp htext
    unfold generateExercise
    dsimp only
    rw [htext]
  · intro k diff call
    constructor
    · intro hfail
      obtain ⟨err, herr⟩ := hfail
      rcases call with e | resp
      · exact Or.inl ⟨e, rfl⟩
      · rcases htext : resp.text with _ | raw
        · exact Or.inr ⟨resp, rfl, htext⟩
        · exfalso
          unfold generateExercise at herr
          dsimp only at herr
          rw [htext] at herr
          exact Except.noConfusion herr
    · intro hcase
      rcases hcase with ⟨e, rfl⟩ | ⟨resp, rfl, htext⟩
      · exact ⟨GenError.requestFailed e, rfl⟩
      · refine ⟨GenError.emptyResponse, ?_⟩
        unfold generateExercise
        dsimp only
        rw [htext]

/-- Witness for C4 at concrete inputs: missing key, failed call, and empty
response. -/
theorem generateExercise_failure_spec_witness :
    generateExercise none Difficulty.facile (Except.ok ⟨none⟩) =
      Except.error GenError.missingApiKey ∧
    generateExercise (some "k") Difficulty.facile (Except.error "boom") =
      Except.error (GenError.requestFailed "boom") ∧
    generateExercise (some "k") Difficulty.facile (Except.ok ⟨none⟩) =
      Except.error GenError.emptyResponse :=
  ⟨generateExercise_failure_spec.1 Difficulty.facile (Except.ok ⟨none⟩),
   generateExercise_failure_spec.2.1 "k" Difficulty.facile "boom",
   generateExercise_failure_spec.2.2.1 "k" Difficulty.facile ⟨none⟩ rfl⟩

/-- States reached from the setup screen are never `'loading'` or
`'success'`. -/
theorem appReach_not_loading_success (evs : List AppEvent) (s : UiState)
    (h1 : s ≠ UiState.loading) (h2 : s ≠ UiState.success) :
    appReach s evs ≠ UiState.loading ∧ appReach s evs ≠ UiState.success := by
  induction evs generalizing s with
  | nil => exact ⟨h1, h2⟩
  | cons e rest ih =>
    have hstep : appStep s e ≠ UiState.loading ∧
        appStep s e ≠ UiState.success := by
      cases s <;> cases e <;> simp_all [appStep]
    exact ih (appStep s e) hstep.1 hstep.2

/-- A run ending on the tree screen started there or visited the matrix
screen. -/
theorem appReach_tree_visited (evs : List AppEvent) (s : UiState)
    (h : appReach s evs = UiState.tree) :
    s = UiState.tree ∨ UiState.matrix ∈ appVisited s evs := by
  induction evs generalizing s with
  | nil => exact Or.inl h
  | cons e rest ih =>
    rcases ih (appStep s e) h with h1 | h2
    · have hsrc : s = UiState.matrix ∨ s = UiState.tree := by
        cases s <;> cases e <;> simp_all [appStep]
      rcases hsrc with rfl | rfl
      · right
        simp [appVisited]
      · exact Or.inl rfl
    · right
      simp only [appVisited, List.mem_cons]
      exact Or.inr h2

/-- C5: the screen machine only moves along setup → info → matrix → tree —
the sole entry into `'info'` from another screen is the generation success
from `'setup'`, the sole entry into `'tree'` from another screen is the
matrix completion from `'matrix'`, each
screen steps only to itself, to `'setup'`, or to its successor, the header
returns to `'setup'` from anywhere, runs from `'setup'` never reach the
declared-but-unused states `'loading'` and `'success'`, and a run from
`'setup'` that reaches `'tree'` visited `'matrix'`. -/
theorem appState_machine_spec :
    (∀ s e, appStep s e = UiState.tree →
      (s = UiState.matrix ∧ e = AppEvent.matrixComplete) ∨
      s = UiState.tree) ∧
    (∀ s e, appStep s e = UiState.info →
      (s = UiState.setup ∧ e = AppEvent.exerciseReady) ∨
      s = UiState.info) ∧
    (∀ e, appStep UiState.setup e = UiState.setup ∨
      appStep UiState.setup e = UiState.info) ∧
    (∀ e, appStep UiState.info e = UiState.info ∨
      appStep UiState.info e = UiState.setup ∨
      appStep UiState.info e = UiState.matrix) ∧
    (∀ e, appStep UiState.matrix e = UiState.matrix ∨
      appStep UiState.matrix e = UiState.setup ∨
      appStep UiState.matrix e = UiState.tree) ∧
    (∀ e, appStep UiState.tree e = UiState.tree ∨
      appStep UiState.tree e = UiState.setup) ∧
    (∀ s, appStep s AppEvent.headerHome = UiState.setup) ∧
    (∀ evs, appReach UiState.setup evs ≠ UiState.loading ∧
      appReach UiState.setup evs ≠ UiState.success) ∧
    (∀ evs, appReach UiState.setup evs = UiState.tree →
      UiState.matrix ∈ appVisited UiState.setup evs) := by
  refine ⟨?_, ?_, ?_, ?_, ?_, ?_, ?_, ?_, ?_⟩
  · intro s e; cases s <;> cases e <;> simp [appStep]
  · intro s e; cases s <;> cases e <;> simp [appStep]
  · intro e; cases e <;> simp [appStep]
  · intro e; cases e <;> simp [appStep]
  · intro e; cases e <;> simp [appStep]
  · intro e; cases e <;> simp [appStep]
  · intro s; cases s <;> simp [appStep]
  · intro evs
    exact appReach_not_loading_success evs UiState.setup (by decide) (by decide)
  · intro evs h
    rcases appReach_tree_visited evs UiState.setup h with h1 | h2
    · exact absurd h1 (by decide)
    · exact h2

/-- Witness for C5: the canonical run setup → info → matrix → tree visits the
matrix screen. -/
theorem appState_machine_spec_witness :
    UiState.matrix ∈ appVisited UiState.setup
      [AppEvent.exerciseReady, AppEvent.infoContinue,
       AppEvent.matrixComplete] :=
  appState_machine_spec.2.2.2.2.2.2.2.2
    [AppEvent.exerciseReady, AppEvent.infoContinue, AppEvent.matrixComplete]
    (by decide)

/-- C6: for every layout (TreeExercise's and TeacherZone's constants
included) and every exercise with `n ≥ 1` evolution steps, the trunk point
function is affine in `t`; the attribute slot parameter is `(i + 0.5)/n` and
its trunk point is exactly the midpoint of the segment endpoints at `i/n` and
`(i+1)/n` (the drawn tick mark); the i-th segment's end node lies at
`t = (i+1)/n`, the last one at `t = 1`; and the trunk tip's x-coordinate
equals the branch target x of the last taxon — all in exact rational
arithmetic. -/
theorem combTree_layout_spec (L : TreeLayout) (n i : ℕ) (h1 : 1 ≤ n)
    (hi : i < n) :
    (∀ a b μ : ℚ,
      (getTrunkPoint L n ((1 - μ) * a + μ * b)).1 =
        (1 - μ) * (getTrunkPoint L n a).1 + μ * (getTrunkPoint L n b).1 ∧
      (getTrunkPoint L n ((1 - μ) * a + μ * b)).2 =
        (1 - μ) * (getTrunkPoint L n a).2 + μ * (getTrunkPoint L n b).2) ∧
    attrT n i = ((i : ℚ) + 1 / 2) / (n : ℚ) ∧
    nodeT n i = ((i : ℚ) + 1) / (n : ℚ) ∧
    ((getTrunkPoint L n (attrT n i)).1 =
      ((getTrunkPoint L n ((i : ℚ) * segmentSize n)).1 +
        (getTrunkPoint L n (nodeT n i)).1) / 2 ∧
     (getTrunkPoint L n (attrT n i)).2 =
      ((getTrunkPoint L n ((i : ℚ) * segmentSize n)).2 +
        (getTrunkPoint L n (nodeT n i)).2) / 2) ∧
    nodeT n (n - 1) = 1 ∧
    (getTrunkPoint L n 1).1 = trunkTipX L n ∧
    trunkTipX L n = taxonTargetX L (n - 1) := by
  have hn : (n : ℚ) ≠ 0 := Nat.cast_ne_zero.mpr (by omega)
  have hcast : ((n - 1 : ℕ) : ℚ) = (n : ℚ) - 1 := by
    rw [Nat.cast_sub h1]
    norm_num
  refine ⟨?_, ?_, ?_, ⟨?_, ?_⟩, ?_, ?_, ?_⟩
  · intro a b μ
    constructor <;> (simp only [getTrunkPoint]; ring)
  · unfold attrT segmentSize
    ring
  · unfold nodeT segmentSize
    ring
  · unfold getTrunkPoint attrT nodeT segmentSize
    ring
  · unfold getTrunkPoint attrT nodeT segmentSize
    ring
  · unfold nodeT segmentSize
    rw [hcast]
    field_simp
  · unfold getTrunkPoint
    ring
  · unfold trunkTipX taxonTargetX
    rw [hcast]

/-- Witness for C6 with the TreeExercise constants, four steps, second
segment. -/
theorem combTree_layout_spec_witness :
    nodeT 4 3 = 1 ∧
    trunkTipX treeExerciseLayout 4 = taxonTargetX treeExerciseLayout 3 ∧
    attrT 4 1 = ((1 : ℚ) + 1 / 2) / (4 : ℚ) :=
  ⟨(combTree_layout_spec treeExerciseLayout 4 1 (by norm_num)
      (by norm_num)).2.2.2.2.1,
   (combTree_layout_spec treeExerciseLayout 4 1 (by norm_num)
      (by norm_num)).2.2.2.2.2.2,
   (combTree_layout_spec treeExerciseLayout 4 1 (by norm_num)
      (by norm_num)).2.1⟩

/-- A nullable reference is valid exactly when every id it names is in the
list. -/
theorem optInList_iff (o : Option String) (l : List String) :
    optInList o l = true ↔ ∀ t, o = some t → t ∈ l := by
  cases o <;> simp [optInList]

/-- Counterexample to the `generateExercise` part of C7: the service performs
no cross-reference validation, so a schema-valid response whose matrix keys a
taxon id absent from its taxon list yields a returned payload violating
"referenced IDs exist". -/
theorem referencedIds_generate_counterexample :
    generateExercise (some "k") Difficulty.facile
      (Except.ok ⟨some badRaw⟩) = Except.ok badGenerated ∧
    wellFormed badGenerated = false := by
  constructor
  · rfl
  · rfl

/-- C7 (amended): the "referenced IDs exist" invariant holds for the built-in
default payload and is preserved by the pre-display shuffling; it is *not*
guaranteed for payloads returned by `generateExercise`, which validates no
ids (`referencedIds_generate_counterexample`). -/
theorem referencedIds_default_and_shuffle :
    wellFormed DEFAULT_DATA = true ∧
    (∀ (randT randC : ℕ → ℕ) (d : ExerciseData), wellFormed d = true →
      wellFormed (shuffleData randT randC d) = true) := by
  constructor
  · decide
  · intro randT randC d h
    have hpt : List.Perm (taxonIds (shuffleData randT randC d))
        (taxonIds d) := by
      unfold taxonIds shuffleData shuffleArray
      exact (shuffleAux_perm randT (d.taxons.length - 1) d.taxons).map
        (fun t => t.id)
    have hpc : List.Perm (characterIds (shuffleData randT randC d))
        (characterIds d) := by
      unfold characterIds shuffleData shuffleArray
      exact (shuffleAux_perm randC (d.characters.length - 1) d.characters).map
        (fun c => c.id)
    have ht : ∀ x : String,
        (taxonIds (shuffleData randT randC d)).contains x =
          (taxonIds d).contains x := by
      intro x
      have e1 : (taxonIds (shuffleData randT randC d)).contains x = true ↔
          x ∈ taxonIds (shuffleData randT randC d) := by simp
      have e2 : (taxonIds d).contains x = true ↔ x ∈ taxonIds d := by simp
      rw [Bool.eq_iff_iff, e1, e2]
      exact hpt.mem_iff
    have hc : ∀ x : String,
        (characterIds (shuffleData randT randC d)).contains x =
          (characterIds d).contains x := by
      intro x
      have e1 : (characterIds (shuffleData randT randC d)).contains x = true ↔
          x ∈ characterIds (shuffleData randT randC d) := by simp
      have e2 : (characterIds d).contains x = true ↔ x ∈ characterIds d := by
        simp
      rw [Bool.eq_iff_iff, e1, e2]
      exact hpc.mem_iff
    have hoptT : ∀ o, optInList o (taxonIds (shuffleData randT randC d)) =
        optInList o (taxonIds d) := by
      intro o
      cases o with
      | none => rfl
      | some t => exact ht t
    have hoptC : ∀ o,
        optInList o (characterIds (shuffleData randT randC d)) =
          optInList o (characterIds d) := by
      intro o
      cases o with
      | none => rfl
      | some c => exact hc c
    unfold wellFormed at h ⊢
    have hcm : (shuffleData randT randC d).correctMatrix = d.correctMatrix :=
      rfl
    have heo : (shuffleData randT randC d).evolutionOrder =
        d.evolutionOrder := rfl
    rw [hcm, heo]
    simp only [ht, hc, hoptT, hoptC]
    exact h

/-- Witness for C7: the shuffled default payload is well formed. -/
theorem referencedIds_default_and_shuffle_witness :
    wellFormed (shuffleData (fun _ => 0) (fun _ => 0) DEFAULT_DATA) = true :=
  referencedIds_default_and_shuffle.2 (fun _ => 0) (fun _ => 0) DEFAULT_DATA
    (by decide)

end PhyloGenius
